import Mathlib

/-
  Verification of the property_finder parallel scraping drivers.

  The definitions below are a shallow embedding of the Python sources:
  - services/scrapers/examples/dallasprobate.py (owner-name parser, result
    polling, party-card disqualification scan, worker loop, writer loop)
  - services/scrapers/examples/dallastax.py (worker loop stats handling)
  - services/captcha/solver.py (CaptchaSolver.solve)

  Python string operations are modelled by executable functions over the
  character list underlying a Lean String, mirroring CPython semantics for
  upper/strip/split/replace on the ASCII data this program handles.
-/

namespace PropertyFinder

/-! ### Python string primitives, modelled on lists of characters -/

/-- Model of testing whether one character list begins with another. -/
def beginsWith : List Char → List Char → Bool
  | [], _ => true
  | _ :: _, [] => false
  | p :: ps, c :: cs => p == c && beginsWith ps cs

/-- Model of Python substring containment, `pat in s`. -/
def containsSubL (pat : List Char) : List Char → Bool
  | [] => pat.isEmpty
  | c :: cs => beginsWith pat (c :: cs) || containsSubL pat cs

/-- One step of Python non-overlapping left-to-right `str.replace`.
The fuel argument bounds recursion by the length of the subject string. -/
def replaceGo (pat rep : List Char) : Nat → List Char → List Char
  | 0, s => s
  | _ + 1, [] => []
  | fuel + 1, c :: cs =>
      if beginsWith pat (c :: cs) && !pat.isEmpty then
        rep ++ replaceGo pat rep fuel (List.drop (pat.length - 1) cs)
      else
        c :: replaceGo pat rep fuel cs

/-- Model of Python `s.replace(pat, rep)` (all non-overlapping occurrences). -/
def pyReplace (s pat rep : String) : String :=
  String.mk (replaceGo pat.toList rep.toList s.toList.length s.toList)

/-- Model of Python `s.upper()` on the ASCII data this program handles. -/
def pyUpper (s : String) : String :=
  String.mk (s.toList.map Char.toUpper)

/-- Model of Python `s.strip()`: drop leading and trailing whitespace. -/
def pyStrip (s : String) : String :=
  String.mk (((s.toList.dropWhile Char.isWhitespace).reverse.dropWhile
    Char.isWhitespace).reverse)

/-- Model of Python `s.split(sep)` for a one-character separator. -/
def splitCharL (sep : Char) : List Char → List (List Char)
  | [] => [[]]
  | c :: cs =>
      match splitCharL sep cs with
      | [] => if c == sep then [[], []] else [[c]]
      | r :: rs => if c == sep then [] :: r :: rs else (c :: r) :: rs

/-- Model of Python `s.split(sep)` for a one-character separator, on strings. -/
def pySplitChar (s : String) (sep : Char) : List String :=
  (splitCharL sep s.toList).map String.mk

/-- Accumulator pass for Python whitespace `s.split()` (no argument). -/
def splitWSAux : List Char → List Char → List (List Char)
  | [], acc => if acc.isEmpty then [] else [acc.reverse]
  | c :: cs, acc =>
      if c.isWhitespace then
        if acc.isEmpty then splitWSAux cs [] else acc.reverse :: splitWSAux cs []
      else splitWSAux cs (c :: acc)

/-- Model of Python `s.split()`: split on whitespace runs, no empty pieces. -/
def pySplitWS (s : String) : List String :=
  (splitWSAux s.toList []).map String.mk

/-- Model of Python `' '.join(ws)`. -/
def joinSpace : List String → String
  | [] => ""
  | [w] => w
  | w :: ws => w ++ " " ++ joinSpace ws

/-- Model of Python `' '.join(s.split())`: collapse whitespace runs. -/
def normWS (s : String) : String :=
  joinSpace (pySplitWS s)

/-- Model of Python `c in s` for a single character. -/
def pyContainsChar (s : String) (c : Char) : Bool :=
  s.toList.contains c

/-- Model of Python `pat in s` substring membership on strings. -/
def pyContainsSub (s pat : String) : Bool :=
  containsSubL pat.toList s.toList

/-- Model of Python `s.startswith(pat)`. -/
def pyStartsWith (s pat : String) : Bool :=
  beginsWith pat.toList s.toList

/-- Python length of a string, in characters. -/
def pyLen (s : String) : Nat :=
  s.toList.length

/-! ### Owner-name parser, from dallasprobate.parse_owner_name -/

/-- One parsed co-owner, the `(first, middle, last, search)` tuple built by
`parse_owner_name`. -/
structure Identity where
  first : String
  middle : String
  last : String
  search_term : String
  deriving DecidableEq

/-- Boilerplate phrases stripped by `parse_owner_name`, in source order. -/
def cleanup_phrases : List String :=
  ["EST OF", "ET AL", "ESTATE OF", "ESTATE", "EST"]

/-- The cleanup loop applied to the whole raw string: each phrase replaced
by a space, in order. -/
def applyCleanup (s : String) : String :=
  cleanup_phrases.foldl (fun acc phrase => pyReplace acc phrase " ") s

/-- The second cleanup loop used on the two co-owner halves: each
replacement is followed by a strip, as in the source. -/
def applyCleanupStrip (s : String) : String :=
  cleanup_phrases.foldl (fun acc phrase => pyStrip (pyReplace acc phrase " ")) s

/-- Embedding of `dallasprobate.parse_owner_name`: strip boilerplate,
normalize whitespace, then branch on `&`, on a comma, or on position. -/
def parse_owner_name (raw_owner_string : String) : List Identity :=
  let cleaned0 := pyStrip (pyUpper raw_owner_string)
  let cleaned1 := applyCleanup cleaned0
  let cleaned := normWS cleaned1
  if pyContainsChar cleaned '&' then
    let parts := pySplitChar cleaned '&'
    let first_part0 := pyStrip (parts.headD "")
    let second_part0 := pyStrip ((parts.drop 1).headD "")
    let first_part := applyCleanupStrip first_part0
    let second_part := applyCleanupStrip second_part0
    let first_owner_words := pySplitWS first_part
    let owners1 : List Identity :=
      if 2 ≤ first_owner_words.length then
        let last1 := first_owner_words.headD ""
        let first1 := (first_owner_words.drop 1).headD ""
        let middle1 :=
          if 2 < first_owner_words.length then joinSpace (first_owner_words.drop 2) else ""
        [⟨first1, middle1, last1, last1 ++ ", " ++ first1⟩]
      else []
    let second_words := pySplitWS second_part
    let owners2 : List Identity :=
      if second_words.length = 1 ∧ 1 ≤ first_owner_words.length then
        let last2 := first_owner_words.headD ""
        let first2 := second_words.headD ""
        [⟨first2, "", last2, last2 ++ ", " ++ first2⟩]
      else if 2 ≤ second_words.length then
        let last2 := second_words.headD ""
        let first2 := (second_words.drop 1).headD ""
        let middle2 :=
          if 2 < second_words.length then joinSpace (second_words.drop 2) else ""
        [⟨first2, middle2, last2, last2 ++ ", " ++ first2⟩]
      else []
    owners1 ++ owners2
  else
    let words := pySplitWS cleaned
    if pyContainsChar cleaned ',' then
      let parts := pySplitChar cleaned ','
      let last := pyStrip (parts.headD "")
      let rest := pyStrip ((parts.drop 1).headD "")
      let rest_words := pySplitWS rest
      let first := rest_words.headD ""
      let middle := if 1 < rest_words.length then joinSpace (rest_words.drop 1) else ""
      [⟨first, middle, last, last ++ ", " ++ first⟩]
    else if 2 ≤ words.length then
      let last := words.headD ""
      let first := (words.drop 1).headD ""
      let middle := if 2 < words.length then joinSpace (words.drop 2) else ""
      [⟨first, middle, last, last ++ ", " ++ first⟩]
    else
      let last := words.headD ""
      [⟨"", "", last, last⟩]

/-! ### Result polling, from dallasprobate.wait_for_results -/

/-- Observable page state at one polling attempt of the injected
JavaScript loop: whether `document.body` exists, how many
`div.party-card` nodes are present, and whether one of the known
no-results text markers occurs in the body text. -/
structure Page where
  hasBody : Bool
  partyCards : Nat
  noResultsText : Bool

/-- `maxAttempts` of the injected polling loop. -/
def maxAttempts : Nat := 20

/-- The recursive check of the injected polling loop: at each attempt,
missing body retries; party cards resolve success with their count; a
no-results marker resolves success with count 0; otherwise retry until
the attempts are exhausted, then resolve failure. -/
def waitGo (pages : Nat → Page) : Nat → Nat → Bool × Nat
  | _, 0 => (false, 0)
  | k, fuel + 1 =>
      let p := pages k
      if !p.hasBody then waitGo pages (k + 1) fuel
      else if 0 < p.partyCards then (true, p.partyCards)
      else if p.noResultsText then (true, 0)
      else waitGo pages (k + 1) fuel

/-- Embedding of `dallasprobate.wait_for_results`: poll the page states
for up to `maxAttempts` attempts. -/
def wait_for_results (pages : Nat → Page) : Bool × Nat :=
  waitGo pages 0 maxAttempts

/-! ### Party-card scan, from dallasprobate.process_search_results -/

/-- One `td.card-data` cell of a case table: its class attribute and its
text content. -/
structure CardTd where
  classes : String
  text : String
  deriving DecidableEq

/-- One `table.kgrid-card-table` of a party card. -/
structure CaseTable where
  tds : List CardTd
  deriving DecidableEq

/-- One `div.party-card` search result: its full text content and its
nested case tables. -/
structure PartyCard where
  text_content : String
  tables : List CaseTable
  deriving DecidableEq

/-- The td scan of one case table: the last `party-case-type` cell and
the last `party-case-status` cell win, each stripped and uppercased. -/
def scan_tds : List CardTd → Option String → Option String → Option String × Option String
  | [], t, s => (t, s)
  | td :: rest, t, s =>
      let td_text := pyUpper (pyStrip td.text)
      if pyContainsSub td.classes "party-case-type" then scan_tds rest (some td_text) s
      else if pyContainsSub td.classes "party-case-status" then scan_tds rest t (some td_text)
      else scan_tds rest t s

/-- Whether a case type string falls in the disqualifying category list. -/
def is_disqualifying_type (case_type : String) : Bool :=
  pyStartsWith case_type "DECEDENT - WILL" ||
  pyStartsWith case_type "HEIRSHIP" ||
  pyContainsSub case_type "HEIRSHIP"

/-- Whether one case table is a disqualifying case: it has a non-falsy
case type in the disqualifying category list, and its status cell reads
`OPEN` after stripping and uppercasing. -/
def case_table_disqualifies (ct : CaseTable) : Bool :=
  let scan := scan_tds ct.tds none none
  match scan.1 with
  | none => false
  | some case_type =>
      if case_type = "" then false
      else if !is_disqualifying_type case_type then false
      else scan.2 == some "OPEN"

/-- The inner case-table loop: stop at the first disqualifying case. -/
def scan_case_tables : List CaseTable → Bool
  | [] => false
  | ct :: rest => if case_table_disqualifies ct then true else scan_case_tables rest

/-- The exact expected owner line, `"LAST, FIRST"`. -/
def expected_exact (first_upper last_upper : String) : String :=
  last_upper ++ ", " ++ first_upper

/-- The expected owner line with a middle initial, when a middle name is
present: `"LAST, FIRST M."`. -/
def expected_with_middle (first_upper middle_upper last_upper : String) : Option String :=
  match middle_upper.toList with
  | [] => none
  | m0 :: _ => some (last_upper ++ ", " ++ first_upper ++ " " ++ String.mk [m0] ++ ".")

/-- Whether an optional expected-with-middle string matches by containment. -/
def optMatchesSub (w : Option String) (line : String) : Bool :=
  match w with
  | none => false
  | some m => pyContainsSub line m

/-- The line scan of one party card: the first cleaned line that contains
a comma, has length strictly between 5 and 100, and contains one of the
expected owner strings. -/
def find_owner_line (exact : String) (withMid : Option String) : List String → Option String
  | [] => none
  | line :: rest =>
      let line_clean := normWS (pyStrip line)
      if pyContainsChar line_clean ',' && (5 < pyLen line_clean && pyLen line_clean < 100) &&
          (pyContainsSub line_clean exact || optMatchesSub withMid line_clean) then
        some line_clean
      else find_owner_line exact withMid rest

/-- The owner text chosen for one party card: a matching line, or the
expected string itself when it occurs anywhere in the card text. -/
def owner_text_of (exact : String) (withMid : Option String) (card_full_text : String) :
    Option String :=
  match find_owner_line exact withMid (pySplitChar card_full_text '\n') with
  | some t => some t
  | none =>
      if pyContainsSub card_full_text exact then some exact
      else match withMid with
        | some m => if pyContainsSub card_full_text m then some m else none
        | none => none

/-- The name-match rule applied to the normalized owner text: exact
equality, equality with the middle-initial form, or containment of the
exact form with at most one unmatched word remaining. -/
def owner_name_matches (exact : String) (withMid : Option String) (owner_text : String) : Bool :=
  let owner_normalized := normWS owner_text
  if owner_normalized == exact then true
  else if (withMid.map (fun m => owner_normalized == m)).getD false then true
  else if pyContainsSub owner_normalized exact then
    let remaining := pyStrip (pyReplace owner_normalized exact "")
    (pySplitWS remaining).length ≤ 1
  else false

/-- Whether one party card names the searched identity. -/
def card_name_matches (exact : String) (withMid : Option String) (pc : PartyCard) : Bool :=
  let card_full_text := pyUpper pc.text_content
  match owner_text_of exact withMid card_full_text with
  | none => false
  | some t => owner_name_matches exact withMid t

/-- Whether one party card both names the identity and holds a
disqualifying open case. -/
def party_card_disqualifies (exact : String) (withMid : Option String) (pc : PartyCard) : Bool :=
  card_name_matches exact withMid pc && scan_case_tables pc.tables

/-- The outer party-card loop: stop at the first disqualifying card. -/
def scan_party_cards (exact : String) (withMid : Option String) : List PartyCard → Bool
  | [] => false
  | pc :: rest =>
      if party_card_disqualifies exact withMid pc then true
      else scan_party_cards exact withMid rest

/-- The expected owner strings built from one identity's name parts. -/
def expected_of (first_name middle_name last_name : String) : String × Option String :=
  let first_upper := pyStrip (pyUpper first_name)
  let middle_upper := if middle_name ≠ "" then pyStrip (pyUpper middle_name) else ""
  let last_upper := pyStrip (pyUpper last_name)
  (expected_exact first_upper last_upper,
   expected_with_middle first_upper middle_upper last_upper)

/-- Embedding of `dallasprobate.process_search_results`: decide whether
the searched individual has a disqualifying probate case among the
displayed party cards. -/
def process_search_results (first_name middle_name last_name : String)
    (cards : List PartyCard) : Bool :=
  scan_party_cards (expected_of first_name middle_name last_name).1
    (expected_of first_name middle_name last_name).2 cards

/-! ### Per-identity search routine, from the probate worker inner loop -/

/-- Status field written into a probate `log_entry`. -/
inductive PStatus where
  | FOUND_CLEAN
  | DISQUALIFIED
  | NOT_FOUND
  | TIMEOUT
  | ERROR
  deriving DecidableEq

/-- The fields of one probate `log_entry` the worker pushes onto the
results queue after attempting one identity. -/
structure SearchOutcome where
  status : PStatus
  count : Nat
  disqualifying_probate_found : Bool
  overall_property_failed : Bool
  error : Option String
  deriving DecidableEq

/-- External behavior of the browser session while one identity is
processed: either some operation in the guarded block raises with a
message, or the attempt runs to completion and the page shows the given
polling states and party cards. -/
inductive IdentityEnv where
  | raises (msg : String)
  | completes (pages : Nat → Page) (cards : List PartyCard)

/-- Embedding of the body of the probate worker's per-identity loop: the
guarded search attempt produces one outcome and the updated
`owners_failed_filter` flag; an exception is caught at this boundary and
becomes an `ERROR` outcome. -/
def process_identity (ident : Identity) (env : IdentityEnv)
    (owners_failed_filter : Bool) : SearchOutcome × Bool :=
  match env with
  | .raises msg =>
      (⟨.ERROR, 0, false, owners_failed_filter, some msg⟩, owners_failed_filter)
  | .completes pages cards =>
      let res := wait_for_results pages
      if !res.1 then
        (⟨.TIMEOUT, 0, false, owners_failed_filter, none⟩, owners_failed_filter)
      else if 0 < res.2 then
        let owner_disqualified :=
          process_search_results ident.first ident.middle ident.last cards
        let failed := owners_failed_filter || owner_disqualified
        (⟨if owner_disqualified then .DISQUALIFIED else .FOUND_CLEAN,
          res.2, owner_disqualified, failed, none⟩, failed)
      else
        (⟨.NOT_FOUND, 0, false, owners_failed_filter, none⟩, owners_failed_filter)

/-- The probate worker's loop over the parsed owners of one work item:
each identity yields one outcome, threading the `owners_failed_filter`
flag; the index selects each identity's environment. -/
def run_identities (envs : Nat → IdentityEnv) :
    List Identity → Nat → Bool → List SearchOutcome × Bool
  | [], _, failed => ([], failed)
  | ident :: rest, k, failed =>
      let step := process_identity ident (envs k) failed
      let tail := run_identities envs rest (k + 1) step.2
      (step.1 :: tail.1, tail.2)

/-! ### Shared statistics and shutdown conditions -/

/-- The process-wide counters of `stats_dict`, guarded by the stats lock. -/
structure SharedStats where
  completed : Nat
  in_progress : Nat
  deriving DecidableEq

/-- The probate/tax worker's empty-queue shutdown check: exit when no
item is in progress. -/
def worker_empty_shutdown (st : SharedStats) : Bool :=
  st.in_progress == 0

/-- The probate writer's empty-queue fallback shutdown check: exit when
the completed count has reached the task total and no item is in
progress. -/
def writer_empty_shutdown (st : SharedStats) (total_tasks : Nat) : Bool :=
  (total_tasks ≤ st.completed) && st.in_progress == 0

/-! ### Work-queue orchestration, from the probate main and worker loop -/

/-- One queue element of the probate work queue:
`(original_row, raw_owner, parsed_owners)`. -/
structure WorkItem where
  original_row : Nat
  raw_owner : String
  parsed_owners : List Identity
  deriving DecidableEq

/-- Queue population in `main`: each owner string becomes one work item
with its 1-based original row and its parsed identities, in input order. -/
def populate_work_items (owners_to_process : List String) (start_idx : Nat) : List WorkItem :=
  owners_to_process.mapIdx fun k raw_owner =>
    ⟨start_idx + 1 + k, raw_owner, parse_owner_name raw_owner⟩

/-- Local phase of one worker process: waiting to pop, holding a popped
item, or shut down (recording whether shutdown came from a sentinel). -/
inductive WorkerPhase where
  | idle
  | busy (item : WorkItem)
  | done (gotSentinel : Bool)
  deriving DecidableEq

/-- Whether a worker phase is shut down. -/
def isDoneB : WorkerPhase → Bool
  | .done _ => true
  | _ => false

/-- Whether a worker phase holds an item. -/
def isBusyB : WorkerPhase → Bool
  | .busy _ => true
  | _ => false

/-- Global state of the worker pool: the shared work queue (a `none`
entry is a poison pill), each worker's phase, the shared counters, the
items fully processed so far, and the entries pushed onto the results
queue so far. -/
structure SysState where
  queue : List (Option WorkItem)
  workers : List WorkerPhase
  stats : SharedStats
  processed : List WorkItem
  results : List SearchOutcome

/-- Number of busy workers. -/
def busyCount (ws : List WorkerPhase) : Nat := ws.countP isBusyB

/-- Number of shut-down workers. -/
def doneCount (ws : List WorkerPhase) : Nat := ws.countP isDoneB

/-- Number of poison pills in the queue. -/
def sentCount (q : List (Option WorkItem)) : Nat := q.countP Option.isNone

/-- The real items in the queue. -/
def queueTasks (q : List (Option WorkItem)) : List WorkItem := q.filterMap id

/-- The items currently held by busy workers. -/
def heldItems (ws : List WorkerPhase) : List WorkItem :=
  ws.filterMap fun w => match w with | .busy a => some a | _ => none

/-- Interleaved small-step semantics of the probate worker pool. A step
is one iteration of some worker's loop: pop a real item (incrementing
`in_progress` under the lock), pop a poison pill and exit, finish the
held item (pushing its outcomes and moving the counters under the lock),
or handle an empty-queue timeout by checking `in_progress`. -/
inductive WStep : SysState → SysState → Prop where
  | popTask (s : SysState) (i : Nat) (a : WorkItem) (rest : List (Option WorkItem)) :
      s.workers.get? i = some .idle → s.queue = some a :: rest →
      WStep s { s with
        queue := rest
        workers := s.workers.set i (.busy a)
        stats := { s.stats with in_progress := s.stats.in_progress + 1 } }
  | popSentinel (s : SysState) (i : Nat) (rest : List (Option WorkItem)) :
      s.workers.get? i = some .idle → s.queue = none :: rest →
      WStep s { s with
        queue := rest
        workers := s.workers.set i (.done true) }
  | finishItem (s : SysState) (i : Nat) (item : WorkItem) (envs : Nat → IdentityEnv) :
      s.workers.get? i = some (.busy item) →
      WStep s { s with
        workers := s.workers.set i .idle
        stats := ⟨s.stats.completed + 1, s.stats.in_progress - 1⟩
        processed := s.processed ++ [item]
        results := s.results ++ (run_identities envs item.parsed_owners 0 false).1 }
  | emptyExit (s : SysState) (i : Nat) :
      s.workers.get? i = some .idle → s.queue = [] →
      worker_empty_shutdown s.stats = true →
      WStep s { s with workers := s.workers.set i (.done false) }
  | emptyLoop (s : SysState) (i : Nat) :
      s.workers.get? i = some .idle → s.queue = [] →
      worker_empty_shutdown s.stats = false →
      WStep s s

/-- Reachability along worker steps. -/
inductive Reach : SysState → SysState → Prop where
  | refl (s : SysState) : Reach s s
  | tail {a b c : SysState} : Reach a b → WStep b c → Reach a c

/-- A run of `n` steps recorded as a trajectory. -/
def RunOf (s0 : SysState) (f : Nat → SysState) (n : Nat) : Prop :=
  f 0 = s0 ∧ ∀ k, k < n → WStep (f k) (f (k + 1))

/-- All workers shut down. -/
@[reducible] def AllDone (s : SysState) : Prop :=
  s.workers.all isDoneB = true

/-- Initial state built by `main`: the work queue holds all items in
original order followed by one poison pill per worker; all workers wait;
the counters start at zero. -/
def initState (items : List WorkItem) (W : Nat) : SysState :=
  { queue := items.map some ++ List.replicate W none
    workers := List.replicate W .idle
    stats := ⟨0, 0⟩
    processed := []
    results := [] }

/-! ### Tax worker per-item handling, from dallastax.worker_process -/

/-- Fields extracted for one qualified property by the tax driver. -/
structure PropertyData where
  owner_name : String
  account_number : String
  address : String
  deriving DecidableEq

/-- One entry the tax worker pushes onto its results queue. -/
structure TaxQueueEntry where
  worker_id : Nat
  row : Nat
  data : PropertyData
  deriving DecidableEq

/-- The tax driver's shared counters, including the qualified count the
tax worker updates itself. -/
structure TaxStats where
  completed : Nat
  qualified : Nat
  in_progress : Nat
  deriving DecidableEq

/-- Entries the tax worker pushes onto the results queue for one work
item, given the result of `search_and_extract`: a qualified property
yields one entry; no match yields none; an exception caught at the
per-item boundary also yields none. -/
def tax_item_results (worker_id row : Nat)
    (result : Except String (Option PropertyData)) : List TaxQueueEntry :=
  match result with
  | .error _ => []
  | .ok none => []
  | .ok (some d) => [⟨worker_id, row, d⟩]

/-- Stats update the tax worker performs for one work item: on the
normal path, `completed` rises by one, `qualified` rises when a property
qualified, and `in_progress` falls by one; on the exception path caught
at the per-item boundary, `completed` still rises by one and
`in_progress` still falls by one. -/
def tax_item_stats (result : Except String (Option PropertyData))
    (st : TaxStats) : TaxStats :=
  match result with
  | .error _ =>
      { st with completed := st.completed + 1, in_progress := st.in_progress - 1 }
  | .ok pd =>
      ⟨st.completed + 1, st.qualified + (if pd.isSome then 1 else 0), st.in_progress - 1⟩

/-! ### CAPTCHA solving, from captcha/solver.py and dallasprobate -/

/-- Response of the vendor `createTask` call. -/
structure CreateTaskResp where
  errorId : Int
  errorDescription : String
  taskId : String
  deriving DecidableEq

/-- Response of one vendor `getTaskResult` poll. -/
structure TaskResultResp where
  status : String
  gRecaptchaResponse : String
  deriving DecidableEq

/-- Poll loop of `dallasprobate.solve_captcha`: sixty 3-second polls; a
`ready` response returns the token; exhaustion raises a timeout
exception. -/
def solveCaptchaPoll (poll : Nat → TaskResultResp) : Nat → Nat → Except String String
  | _, 0 => Except.error "CAPTCHA solving timeout"
  | attempt, fuel + 1 =>
      let data := poll attempt
      if data.status == "ready" then Except.ok data.gRecaptchaResponse
      else solveCaptchaPoll poll (attempt + 1) fuel

/-- Embedding of `dallasprobate.solve_captcha`: a nonzero vendor
`errorId` raises a `CapSolver error` exception; otherwise poll up to 60
times and raise on timeout. -/
def solve_captcha (create : CreateTaskResp) (poll : Nat → TaskResultResp) :
    Except String String :=
  if create.errorId ≠ 0 then
    Except.error ("CapSolver error: " ++ create.errorDescription)
  else solveCaptchaPoll poll 0 60

/-- Poll loop of `CaptchaSolver.solve`: up to `max_attempts` polls; a
`ready` response returns the token; exhaustion returns `none`. -/
def solverPoll (poll : Nat → TaskResultResp) : Nat → Nat → Option String
  | _, 0 => none
  | attempt, fuel + 1 =>
      let data := poll attempt
      if data.status == "ready" then some data.gRecaptchaResponse
      else solverPoll poll (attempt + 1) fuel

/-- Embedding of `CaptchaSolver.solve` from services/captcha/solver.py:
a nonzero vendor `errorId` returns `none`; otherwise poll every 3
seconds for `timeout // 3` attempts and return `none` on exhaustion. -/
def CaptchaSolver.solve (create : CreateTaskResp) (poll : Nat → TaskResultResp)
    (timeout : Nat) : Option String :=
  if create.errorId ≠ 0 then none
  else solverPoll poll 0 (timeout / 3)

/-! ### Concrete one-worker instance used to evaluate the orchestration -/

/-- A concrete work item whose raw string parses to no identities. -/
def wItem : WorkItem := ⟨1, "X", []⟩

/-- Initial state of a one-item, one-worker pool. -/
def wS0 : SysState := initState [wItem] 1

/-- State after the worker pops the item. -/
def wS1 : SysState :=
  { wS0 with queue := [none], workers := [.busy wItem], stats := ⟨0, 1⟩ }

/-- State after the worker finishes the item. -/
def wS2 : SysState :=
  { wS1 with workers := [.idle], stats := ⟨1, 0⟩, processed := [wItem] }

/-- State after the worker consumes its poison pill. -/
def wS3 : SysState :=
  { wS2 with queue := [], workers := [.done true] }

/-! ### Generic list bookkeeping lemmas -/

theorem countP_set_balance {α : Type} (p : α → Bool) :
    ∀ (l : List α) (i : Nat) (a b : α), l.get? i = some a →
      (l.set i b).countP p + (if p a then 1 else 0)
        = l.countP p + (if p b then 1 else 0) := by
  intro l
  induction l with
  | nil => intro i a b h; simp at h
  | cons x xs ih =>
      intro i a b h
      cases i with
      | zero =>
          simp only [List.get?] at h
          cases h
          simp only [List.set, List.countP_cons]
          omega
      | succ j =>
          simp only [List.get?] at h
          simp only [List.set, List.countP_cons]
          have := ih j a b h
          omega

/-- Multiset of an optional element. -/
def optMS {α : Type} : Option α → Multiset α
  | none => 0
  | some a => {a}

theorem filterMapMS_set_balance {α β : Type} (f : α → Option β) :
    ∀ (l : List α) (i : Nat) (a b : α), l.get? i = some a →
      (↑((l.set i b).filterMap f) : Multiset β) + optMS (f a)
        = ↑(l.filterMap f) + optMS (f b) := by
  intro l
  induction l with
  | nil => intro i a b h; simp at h
  | cons x xs ih =>
      intro i a b h
      cases i with
      | zero =>
          simp only [List.get?] at h
          cases h
          simp only [List.set]
          cases hfx : f x with
          | none =>
              cases hfb : f b with
              | none =>
                  rw [List.filterMap_cons_none hfb, List.filterMap_cons_none hfx]
              | some v =>
                  rw [List.filterMap_cons_some hfb, List.filterMap_cons_none hfx]
                  simp only [optMS, ← Multiset.cons_coe, ← Multiset.singleton_add, add_zero]
                  abel
          | some u =>
              cases hfb : f b with
              | none =>
                  rw [List.filterMap_cons_none hfb, List.filterMap_cons_some hfx]
                  simp only [optMS, ← Multiset.cons_coe, ← Multiset.singleton_add, add_zero]
                  abel
              | some v =>
                  rw [List.filterMap_cons_some hfb, List.filterMap_cons_some hfx]
                  simp only [optMS, ← Multiset.cons_coe, ← Multiset.singleton_add]
                  abel
      | succ j =>
          simp only [List.get?] at h
          simp only [List.set]
          cases hfx : f x with
          | none =>
              rw [List.filterMap_cons_none hfx, List.filterMap_cons_none hfx]
              exact ih j a b h
          | some y =>
              rw [List.filterMap_cons_some hfx, List.filterMap_cons_some hfx,
                ← Multiset.cons_coe, ← Multiset.cons_coe, ← Multiset.singleton_add,
                ← Multiset.singleton_add, add_assoc, add_assoc, ih j a b h]

theorem countP_replicate_none {α : Type} (p : α → Bool) (a : α) (h : p a = false) :
    ∀ n, (List.replicate n a).countP p = 0 := by
  intro n
  induction n with
  | zero => rfl
  | succ m ih => simp [List.replicate, List.countP_cons, ih, h]

theorem countP_replicate_all {α : Type} (p : α → Bool) (a : α) (h : p a = true) :
    ∀ n, (List.replicate n a).countP p = n := by
  intro n
  induction n with
  | zero => rfl
  | succ m ih => simp [List.replicate, List.countP_cons, ih, h]

theorem getLast?_replicate_pos {α : Type} (a : α) :
    ∀ n, 0 < n → (List.replicate n a).getLast? = some a := by
  intro n
  induction n with
  | zero => intro h; omega
  | succ m ih =>
      intro _
      cases m with
      | zero => rfl
      | succ k =>
          have := ih (Nat.succ_pos k)
          simpa [List.replicate, List.getLast?] using this

theorem suffix_getLast? {α : Type} {l1 l2 : List α} (h : l1 <:+ l2) (hne : l1 ≠ []) :
    l1.getLast? = l2.getLast? := by
  obtain ⟨t, rfl⟩ := h
  exact (List.getLast?_append_of_ne_nil t hne).symm

/-! ### Reachability invariant of the worker pool -/

/-- Number of outcomes one item contributes to the results queue. -/
theorem run_identities_length (envs : Nat → IdentityEnv) :
    ∀ (l : List Identity) (k : Nat) (failed : Bool),
      (run_identities envs l k failed).1.length = l.length := by
  intro l
  induction l with
  | nil => intro k failed; rfl
  | cons ident rest ih =>
      intro k failed
      simp [run_identities, ih]

/-- The state invariant maintained by every worker step: worker count is
fixed; `in_progress` counts busy workers; `completed` counts processed
items; poison pills in the queue balance shut-down workers; processed,
held and queued items together are exactly the original items; the queue
is a suffix of its initial content; the results queue holds one outcome
per identity of each processed item; and shut-down workers consumed a
sentinel. -/
structure Inv (items : List WorkItem) (W : Nat) (s : SysState) : Prop where
  wlen : s.workers.length = W
  inprog : s.stats.in_progress = busyCount s.workers
  comp : s.stats.completed = s.processed.length
  sent : sentCount s.queue + doneCount s.workers = W
  cons : (↑s.processed + ↑(heldItems s.workers) + ↑(queueTasks s.queue) : Multiset WorkItem)
      = ↑items
  qsuffix : s.queue <:+ (items.map some ++ List.replicate W none)
  resLen : s.results.length = (s.processed.map (fun it => it.parsed_owners.length)).sum
  doneSent : ∀ w ∈ s.workers, ∀ b, w = .done b → b = true

theorem inv_init (items : List WorkItem) (W : Nat) : Inv items W (initState items W) := by
  refine ⟨?_, ?_, rfl, ?_, ?_, ?_, rfl, ?_⟩
  · exact List.length_replicate W _
  · show 0 = busyCount (List.replicate W .idle)
    rw [busyCount, countP_replicate_none isBusyB .idle rfl]
  · show sentCount (items.map some ++ List.replicate W none) + doneCount (List.replicate W .idle) = W
    rw [doneCount, countP_replicate_none isDoneB .idle rfl, sentCount, List.countP_append]
    have h1 : (items.map some).countP Option.isNone = 0 := by
      rw [List.countP_eq_zero]
      intro a ha
      obtain ⟨x, _, rfl⟩ := List.mem_map.mp ha
      simp
    rw [h1, countP_replicate_all Option.isNone none rfl]
    omega
  · show ((↑([] : List WorkItem) + ↑(heldItems (List.replicate W .idle))
        + ↑(queueTasks (items.map some ++ List.replicate W none)) : Multiset WorkItem) = ↑items)
    have h1 : heldItems (List.replicate W .idle) = [] := by
      rw [heldItems, List.filterMap_eq_nil_iff]
      intro a ha
      rw [List.eq_of_mem_replicate ha]
    have h2 : queueTasks (items.map some ++ List.replicate W none) = items := by
      rw [queueTasks, List.filterMap_append]
      have h3 : (items.map some).filterMap id = items := by
        rw [List.filterMap_map]
        exact List.filterMap_some items
      have h4 : (List.replicate W (none : Option WorkItem)).filterMap id = [] := by
        rw [List.filterMap_eq_nil_iff]
        intro a ha
        rw [List.eq_of_mem_replicate ha]
        rfl
      rw [h3, h4, List.append_nil]
    rw [h1, h2]
    simp
  · exact List.suffix_refl _
  · intro w hw b hb
    rw [List.eq_of_mem_replicate hw] at hb
    cases hb

/-- In an invariant state with an empty queue, every worker has shut
down: all poison pills were consumed and each consumed pill shut one
worker down. -/
theorem inv_empty_queue_all_done {items : List WorkItem} {W : Nat} {s : SysState}
    (hinv : Inv items W s) (hq : s.queue = []) :
    ∀ w ∈ s.workers, isDoneB w = true := by
  have hsent := hinv.sent
  rw [hq] at hsent
  simp only [sentCount, List.countP_nil, Nat.zero_add] at hsent
  have hall : s.workers.countP isDoneB = s.workers.length := by
    rw [doneCount] at hsent
    rw [hsent, hinv.wlen]
  exact List.countP_eq_length.mp hall

/-- In an invariant state with an empty queue there is no idle worker. -/
theorem inv_empty_queue_no_idle {items : List WorkItem} {W : Nat} {s : SysState}
    (hinv : Inv items W s) (hq : s.queue = []) (i : Nat) :
    s.workers.get? i ≠ some .idle := by
  intro hget
  have hmem : WorkerPhase.idle ∈ s.workers := List.get?_mem hget
  have := inv_empty_queue_all_done hinv hq _ hmem
  simp [isDoneB] at this

/-- Every worker step preserves the invariant. -/
theorem inv_step {items : List WorkItem} {W : Nat} {s s' : SysState}
    (hinv : Inv items W s) (hstep : WStep s s') : Inv items W s' := by
  cases hstep with
  | popTask i a rest hget hq =>
      refine ⟨?_, ?_, hinv.comp, ?_, ?_, ?_, hinv.resLen, ?_⟩
      · rw [List.length_set]; exact hinv.wlen
      · show s.stats.in_progress + 1 = busyCount (s.workers.set i (.busy a))
        have hb := countP_set_balance isBusyB s.workers i .idle (.busy a) hget
        simp [isBusyB] at hb
        rw [hinv.inprog]
        simp only [busyCount]
        omega
      · show sentCount rest + doneCount (s.workers.set i (.busy a)) = W
        have hd := countP_set_balance isDoneB s.workers i .idle (.busy a) hget
        simp [isDoneB] at hd
        have hsent := hinv.sent
        rw [hq] at hsent
        simp [sentCount, List.countP_cons] at hsent
        simp only [sentCount, doneCount] at *
        omega
      · show ((↑s.processed + ↑(heldItems (s.workers.set i (.busy a)))
            + ↑(queueTasks rest) : Multiset WorkItem) = ↑items)
        have hh := filterMapMS_set_balance
          (fun w => match w with | WorkerPhase.busy a => some a | _ => none)
          s.workers i .idle (.busy a) hget
        simp only [optMS, add_zero] at hh
        have hq2 : queueTasks (some a :: rest) = a :: queueTasks rest := by
          simp [queueTasks, List.filterMap_cons]
        have hc := hinv.cons
        rw [hq, hq2] at hc
        rw [← hc]
        rw [heldItems, hh, heldItems]
        rw [← Multiset.cons_coe, ← Multiset.singleton_add]
        abel
      · have h1 : rest <:+ s.queue := by rw [hq]; exact List.suffix_cons _ _
        exact h1.trans hinv.qsuffix
      · intro w hw b hb
        rcases List.mem_or_eq_of_mem_set hw with h | h
        · exact hinv.doneSent w h b hb
        · rw [h] at hb; cases hb
  | popSentinel i rest hget hq =>
      refine ⟨?_, ?_, hinv.comp, ?_, ?_, ?_, hinv.resLen, ?_⟩
      · rw [List.length_set]; exact hinv.wlen
      · show s.stats.in_progress = busyCount (s.workers.set i (.done true))
        have hb := countP_set_balance isBusyB s.workers i .idle (.done true) hget
        simp [isBusyB] at hb
        rw [hinv.inprog]
        simp only [busyCount]
        omega
      · show sentCount rest + doneCount (s.workers.set i (.done true)) = W
        have hd := countP_set_balance isDoneB s.workers i .idle (.done true) hget
        simp [isDoneB] at hd
        have hsent := hinv.sent
        rw [hq] at hsent
        simp [sentCount, List.countP_cons] at hsent
        simp only [sentCount, doneCount] at *
        omega
      · show ((↑s.processed + ↑(heldItems (s.workers.set i (.done true)))
            + ↑(queueTasks rest) : Multiset WorkItem) = ↑items)
        have hh := filterMapMS_set_balance
          (fun w => match w with | WorkerPhase.busy a => some a | _ => none)
          s.workers i .idle (.done true) hget
        simp only [optMS, add_zero] at hh
        have hq2 : queueTasks (none :: rest) = queueTasks rest := by
          simp [queueTasks, List.filterMap_cons]
        have hc := hinv.cons
        rw [hq, hq2] at hc
        rw [← hc, heldItems, hh, heldItems]
      · have h1 : rest <:+ s.queue := by rw [hq]; exact List.suffix_cons _ _
        exact h1.trans hinv.qsuffix
      · intro w hw b hb
        rcases List.mem_or_eq_of_mem_set hw with h | h
        · exact hinv.doneSent w h b hb
        · rw [h] at hb; injection hb with hb2; exact hb2.symm
  | finishItem i item envs hget =>
      have hbusy_pos : 1 ≤ busyCount s.workers := by
        simp only [busyCount]
        have hpos : 0 < s.workers.countP isBusyB := by
          rw [List.countP_pos_iff]
          exact ⟨.busy item, List.get?_mem hget, rfl⟩
        omega
      refine ⟨?_, ?_, ?_, ?_, ?_, hinv.qsuffix, ?_, ?_⟩
      · rw [List.length_set]; exact hinv.wlen
      · show s.stats.in_progress - 1 = busyCount (s.workers.set i .idle)
        have hb := countP_set_balance isBusyB s.workers i (.busy item) .idle hget
        simp [isBusyB] at hb
        rw [hinv.inprog]
        simp only [busyCount] at *
        omega
      · show s.stats.completed + 1 = (s.processed ++ [item]).length
        rw [List.length_append, hinv.comp]
        rfl
      · show sentCount s.queue + doneCount (s.workers.set i .idle) = W
        have hd := countP_set_balance isDoneB s.workers i (.busy item) .idle hget
        simp [isDoneB] at hd
        have hsent := hinv.sent
        simp only [sentCount, doneCount] at *
        omega
      · show ((↑(s.processed ++ [item]) + ↑(heldItems (s.workers.set i .idle))
            + ↑(queueTasks s.queue) : Multiset WorkItem) = ↑items)
        have hh := filterMapMS_set_balance
          (fun w => match w with | WorkerPhase.busy a => some a | _ => none)
          s.workers i (.busy item) .idle hget
        simp only [optMS, add_zero] at hh
        have hc := hinv.cons
        simp only [heldItems] at hc ⊢
        rw [← hc, ← hh]
        have happ : (↑(s.processed ++ [item]) : Multiset WorkItem)
            = ↑s.processed + ↑([item] : List WorkItem) := by
          exact_mod_cast rfl
        rw [happ]
        have hsing : (↑([item] : List WorkItem) : Multiset WorkItem) = {item} := rfl
        rw [hsing]
        abel
      · show (s.results ++ (run_identities envs item.parsed_owners 0 false).1).length
            = ((s.processed ++ [item]).map (fun it => it.parsed_owners.length)).sum
        rw [List.length_append, List.map_append, List.sum_append, hinv.resLen,
          run_identities_length]
        rfl
      · intro w hw b hb
        rcases List.mem_or_eq_of_mem_set hw with h | h
        · exact hinv.doneSent w h b hb
        · rw [h] at hb; cases hb
  | emptyExit i hget hq hcond =>
      exact absurd hget (inv_empty_queue_no_idle hinv hq i)
  | emptyLoop i hget hq hcond =>
      exact absurd hget (inv_empty_queue_no_idle hinv hq i)

/-- Every state reachable from the initial state satisfies the invariant. -/
theorem inv_reach {items : List WorkItem} {W : Nat} {s : SysState}
    (h : Reach (initState items W) s) : Inv items W s := by
  induction h with
  | refl => exact inv_init items W
  | tail _ hstep ih => exact inv_step ih hstep

/-! ### Terminal states, progress, and termination -/

theorem inv_all_done_queue_empty {items : List WorkItem} {W : Nat} {s : SysState}
    (hW : 0 < W) (hinv : Inv items W s) (hdone : AllDone s) : s.queue = [] := by
  by_contra hne
  have hd : doneCount s.workers = W := by
    rw [doneCount, List.countP_eq_length.mpr (List.all_eq_true.mp hdone)]
    exact hinv.wlen
  have hzero : sentCount s.queue = 0 := by
    have := hinv.sent
    omega
  have hrep_ne : (List.replicate W (none : Option WorkItem)) ≠ [] := by
    intro h
    have := congrArg List.length h
    simp at this
    omega
  have hlast : s.queue.getLast? = some none := by
    rw [suffix_getLast? hinv.qsuffix hne,
      List.getLast?_append_of_ne_nil _ hrep_ne]
    exact getLast?_replicate_pos none W hW
  have hmem : (none : Option WorkItem) ∈ s.queue := List.mem_of_mem_getLast? hlast
  have hpos : 0 < sentCount s.queue := by
    rw [sentCount, List.countP_pos_iff]
    exact ⟨none, hmem, rfl⟩
  omega

theorem all_done_held_nil {s : SysState} (hdone : AllDone s) : heldItems s.workers = [] := by
  rw [heldItems, List.filterMap_eq_nil_iff]
  intro w hw
  have hd := List.all_eq_true.mp hdone w hw
  cases w <;> simp [isDoneB] at hd ⊢

theorem all_done_busy_zero {s : SysState} (hdone : AllDone s) : busyCount s.workers = 0 := by
  rw [busyCount, List.countP_eq_zero]
  intro w hw
  have hd := List.all_eq_true.mp hdone w hw
  cases w <;> simp [isBusyB, isDoneB] at hd ⊢

/-- Everything the invariant yields about a terminal (all-done) state. -/
theorem terminal_state_facts {items : List WorkItem} {W : Nat} {s : SysState} (hW : 0 < W)
    (hreach : Reach (initState items W) s) (hdone : AllDone s) :
    s.processed.Perm items ∧ s.queue = [] ∧ s.stats.completed = items.length ∧
    s.stats.in_progress = 0 ∧ (∀ w ∈ s.workers, w = .done true) := by
  have hinv := inv_reach hreach
  have hq := inv_all_done_queue_empty hW hinv hdone
  have hperm : s.processed.Perm items := by
    have hc := hinv.cons
    rw [all_done_held_nil hdone, hq] at hc
    simp only [queueTasks, List.filterMap_nil, Multiset.coe_nil, add_zero] at hc
    exact Multiset.coe_eq_coe.mp hc
  refine ⟨hperm, hq, ?_, ?_, ?_⟩
  · rw [hinv.comp]; exact hperm.length_eq
  · rw [hinv.inprog, all_done_busy_zero hdone]
  · intro w hw
    have hd := List.all_eq_true.mp hdone w hw
    cases w with
    | done b => rw [hinv.doneSent _ hw b rfl]
    | idle => simp [isDoneB] at hd
    | busy a => simp [isDoneB] at hd

/-- Termination measure: queue length weighted by the two loop
iterations an item costs, plus held items. -/
def measureOf (s : SysState) : Nat := 2 * s.queue.length + busyCount s.workers

theorem step_measure_lt {items : List WorkItem} {W : Nat} {s t : SysState}
    (hinv : Inv items W s) (hstep : WStep s t) : measureOf t < measureOf s := by
  cases hstep with
  | popTask i a rest hget hq =>
      have hb := countP_set_balance isBusyB s.workers i .idle (.busy a) hget
      simp [isBusyB] at hb
      simp only [measureOf, busyCount]
      rw [hq]
      simp only [List.length_cons]
      omega
  | popSentinel i rest hget hq =>
      have hb := countP_set_balance isBusyB s.workers i .idle (.done true) hget
      simp [isBusyB] at hb
      simp only [measureOf, busyCount]
      rw [hq]
      simp only [List.length_cons]
      omega
  | finishItem i item envs hget =>
      have hb := countP_set_balance isBusyB s.workers i (.busy item) .idle hget
      simp [isBusyB] at hb
      simp only [measureOf, busyCount]
      omega
  | emptyExit i hget hq hcond => exact absurd hget (inv_empty_queue_no_idle hinv hq i)
  | emptyLoop i hget hq hcond => exact absurd hget (inv_empty_queue_no_idle hinv hq i)

theorem runOf_reach {items : List WorkItem} {W : Nat} {f : Nat → SysState} {n : Nat}
    (hrun : RunOf (initState items W) f n) :
    ∀ k, k ≤ n → Reach (initState items W) (f k) := by
  intro k
  induction k with
  | zero => intro _; rw [hrun.1]; exact Reach.refl _
  | succ j ih =>
      intro hk
      exact Reach.tail (ih (by omega)) (hrun.2 j (by omega))

theorem runOf_measure {items : List WorkItem} {W : Nat} {f : Nat → SysState} {n : Nat}
    (hrun : RunOf (initState items W) f n) :
    ∀ k, k ≤ n → measureOf (f k) + k ≤ measureOf (initState items W) := by
  intro k
  induction k with
  | zero => intro _; rw [hrun.1]; omega
  | succ j ih =>
      intro hk
      have h1 := ih (by omega)
      have h2 := step_measure_lt (inv_reach (runOf_reach hrun j (by omega)))
        (hrun.2 j (by omega))
      omega

theorem measure_init (items : List WorkItem) (W : Nat) :
    measureOf (initState items W) = 2 * (items.length + W) := by
  show 2 * (items.map some ++ List.replicate W none).length
      + busyCount (List.replicate W .idle) = 2 * (items.length + W)
  rw [busyCount, countP_replicate_none isBusyB .idle rfl W, List.length_append,
    List.length_map, List.length_replicate]
  omega

theorem runOf_length_le {items : List WorkItem} {W : Nat} {f : Nat → SysState} {n : Nat}
    (hrun : RunOf (initState items W) f n) : n ≤ 2 * (items.length + W) := by
  have h1 := runOf_measure hrun n (le_refl n)
  rw [measure_init items W] at h1
  omega

theorem pool_progress {items : List WorkItem} {W : Nat} {s : SysState}
    (hreach : Reach (initState items W) s) (hnot : ¬ AllDone s) : ∃ t, WStep s t := by
  have hinv := inv_reach hreach
  have hex : ∃ w ∈ s.workers, ¬ (isDoneB w = true) := by
    by_contra hall
    push_neg at hall
    exact hnot (List.all_eq_true.mpr hall)
  obtain ⟨w, hw, hwd⟩ := hex
  obtain ⟨i, hget⟩ := List.get?_of_mem hw
  cases w with
  | done b => simp [isDoneB] at hwd
  | busy item => exact ⟨_, WStep.finishItem s i item (fun _ => .raises "") hget⟩
  | idle =>
      cases hq : s.queue with
      | nil => exact absurd hget (inv_empty_queue_no_idle hinv hq i)
      | cons x rest =>
          cases x with
          | none => exact ⟨_, WStep.popSentinel s i rest hget hq⟩
          | some a => exact ⟨_, WStep.popTask s i a rest hget hq⟩

/-- The concrete one-worker system reaches its terminal state. -/
theorem wReach : Reach wS0 wS3 :=
  Reach.tail (Reach.tail (Reach.tail (Reach.refl wS0)
    (WStep.popTask wS0 0 wItem [none] rfl rfl))
    (WStep.finishItem wS1 0 wItem (fun _ => IdentityEnv.raises "") rfl))
    (WStep.popSentinel wS2 0 [] rfl rfl)

/-- C1: in every crash-free run of a pool with at least one worker, at
termination `completed` equals the number of non-sentinel work items
originally enqueued and `in_progress` equals zero; `completed` counts
each work item exactly once (the processed list is a permutation of the
input, and its length is `completed`), not once per identity (the
results queue instead holds one outcome per identity of each processed
item), and the count includes items whose identities failed, since the
step relation increments `completed` for every finished item whatever
its outcomes. -/
theorem stats_conservation_at_termination (items : List WorkItem) (W : Nat) (hW : 0 < W)
    (s : SysState) (hreach : Reach (initState items W) s) (hdone : AllDone s) :
    s.stats.completed = items.length ∧ s.stats.in_progress = 0 ∧
    s.stats.completed = s.processed.length ∧ s.processed.Perm items ∧
    s.results.length = (s.processed.map (fun it => it.parsed_owners.length)).sum := by
  obtain ⟨hperm, _, hcomp, hip, _⟩ := terminal_state_facts hW hreach hdone
  exact ⟨hcomp, hip, (inv_reach hreach).comp, hperm, (inv_reach hreach).resLen⟩

theorem stats_conservation_at_termination_witness :
    wS3.stats.completed = 1 ∧ wS3.stats.in_progress = 0 ∧
    wS3.stats.completed = wS3.processed.length ∧ wS3.processed.Perm [wItem] ∧
    wS3.results.length = (wS3.processed.map (fun it => it.parsed_owners.length)).sum :=
  stats_conservation_at_termination [wItem] 1 (by decide) wS3 wReach (by decide)

/-- C2: from a queue populated with all work items in original-index
order followed by exactly `W` sentinels (the shape of `initState`), with
`W ≥ 1` and no worker crashing, every run is finite (its length is
bounded), a step is always available until all workers have shut down,
and at shutdown no real item is left unprocessed and every worker
consumed exactly one sentinel. -/
theorem sentinel_shutdown_terminates (items : List WorkItem) (W : Nat) (hW : 0 < W) :
    (∀ (f : Nat → SysState) (n : Nat), RunOf (initState items W) f n →
      n ≤ 2 * (items.length + W)) ∧
    (∀ s, Reach (initState items W) s → ¬ AllDone s → ∃ t, WStep s t) ∧
    (∀ s, Reach (initState items W) s → AllDone s →
      s.processed.Perm items ∧ s.queue = [] ∧ ∀ w ∈ s.workers, w = .done true) := by
  refine ⟨?_, ?_, ?_⟩
  · intro f n hrun
    exact runOf_length_le hrun
  · intro s hreach hnot
    exact pool_progress hreach hnot
  · intro s hreach hdone
    obtain ⟨hperm, hq, _, _, hws⟩ := terminal_state_facts hW hreach hdone
    exact ⟨hperm, hq, hws⟩

theorem sentinel_shutdown_terminates_witness :
    (0 ≤ 2 * (([wItem] : List WorkItem).length + 1)) ∧ (∃ t, WStep wS0 t) ∧
    (wS3.processed.Perm [wItem] ∧ wS3.queue = [] ∧
      ∀ w ∈ wS3.workers, w = WorkerPhase.done true) := by
  have h := sentinel_shutdown_terminates [wItem] 1 (by decide)
  refine ⟨?_, ?_, ?_⟩
  · exact h.1 (fun _ => wS0) 0 ⟨rfl, fun k hk => absurd hk (Nat.not_lt_zero k)⟩
  · exact h.2.1 wS0 (Reach.refl wS0) (by decide)
  · exact h.2.2 wS3 wReach (by decide)

/-- C7 counterexample: the workers' empty-timeout exit condition is
`in_progress == 0` alone; at stats with `completed = 0`, `in_progress =
0` and a task total of 1, the worker condition holds while the writer's
fallback condition `completed >= total and in_progress == 0` does not,
so the writer does not use the same condition as the workers and the
workers' condition is not `in_progress == 0 AND completed == total`. -/
theorem writer_worker_condition_mismatch :
    worker_empty_shutdown ⟨0, 0⟩ = true ∧ writer_empty_shutdown ⟨0, 0⟩ 1 = false := by
  decide

/-- C7 amended: on an empty-queue pop timeout a worker exits exactly
when `in_progress == 0` at the check under the stats lock (the
empty-exit transition is possible for an idle worker on an empty queue
precisely under that condition, and otherwise the worker loops); the
writer's fallback shutdown instead uses the strictly stronger condition
`completed >= total AND in_progress == 0`, which implies the workers'
condition but differs from it. -/
theorem empty_timeout_shutdown_conditions :
    (∀ (s : SysState) (i : Nat), s.queue = [] → s.workers.get? i = some .idle →
      (WStep s { s with workers := s.workers.set i (.done false) } ↔
        worker_empty_shutdown s.stats = true)) ∧
    (∀ (st : SharedStats) (total : Nat),
      writer_empty_shutdown st total = true → worker_empty_shutdown st = true) ∧
    (worker_empty_shutdown ⟨3, 1⟩ = false ∧ writer_empty_shutdown ⟨3, 1⟩ 3 = false ∧
      worker_empty_shutdown ⟨2, 0⟩ = true ∧ writer_empty_shutdown ⟨2, 0⟩ 5 = false) := by
  refine ⟨?_, ?_, by decide⟩
  · intro s i hqueue hget
    constructor
    · intro hst
      have key : ∀ t, WStep s t →
          t = { s with workers := s.workers.set i (.done false) } →
          worker_empty_shutdown s.stats = true := by
        intro t hst2 hteq
        cases hst2 with
        | popTask j a rest hget2 hq2 => rw [hqueue] at hq2; cases hq2
        | popSentinel j rest hget2 hq2 => rw [hqueue] at hq2; cases hq2
        | finishItem j item envs hget2 =>
            have h2 : s.stats.completed + 1 = s.stats.completed :=
              congrArg SharedStats.completed (congrArg SysState.stats hteq)
            omega
        | emptyExit j hget2 hq2 hcond => exact hcond
        | emptyLoop j hget2 hq2 hcond =>
            have hw := congrArg SysState.workers hteq
            dsimp only at hw
            have hlen : i < s.workers.length := (List.get?_eq_some.mp hget).1
            have hgot : (s.workers.set i (.done false)).get? i = some (.done false) := by
              simp [List.get?_eq_getElem?, List.getElem?_set_self', hlen,
                List.getElem?_eq_getElem]
            rw [← hw, hget] at hgot
            simp at hgot
      exact key _ hst rfl
    · intro hcond
      exact WStep.emptyExit s i hget hqueue hcond
  · intro st total hw
    rw [writer_empty_shutdown, Bool.and_eq_true] at hw
    rw [worker_empty_shutdown]
    exact hw.2

theorem empty_timeout_shutdown_conditions_witness :
    WStep (⟨[], [.idle], ⟨0, 0⟩, [], []⟩ : SysState)
      { (⟨[], [.idle], ⟨0, 0⟩, [], []⟩ : SysState) with
        workers := ([WorkerPhase.idle].set 0 (.done false)) } ∧
    worker_empty_shutdown ⟨5, 0⟩ = true := by
  constructor
  · exact (empty_timeout_shutdown_conditions.1 ⟨[], [.idle], ⟨0, 0⟩, [], []⟩ 0
      rfl rfl).mpr (by decide)
  · exact empty_timeout_shutdown_conditions.2.1 ⟨5, 0⟩ 5 (by decide)

/-! ### The timeout path (C3) -/

theorem waitGo_none (pages : Nat → Page) :
    ∀ (fuel k0 : Nat),
      (∀ k, k0 ≤ k → k < k0 + fuel →
        (pages k).hasBody = false ∨ ((pages k).partyCards = 0 ∧ (pages k).noResultsText = false)) →
      waitGo pages k0 fuel = (false, 0) := by
  intro fuel
  induction fuel with
  | zero => intro k0 _; rfl
  | succ m ih =>
      intro k0 hcond
      have h0 := hcond k0 (le_refl k0) (by omega)
      simp only [waitGo]
      rcases h0 with hb | ⟨hc, hn⟩
      · rw [hb]
        simp only [Bool.not_false, if_pos]
        exact ih (k0 + 1) (fun k hk1 hk2 => hcond k (by omega) (by omega))
      · rw [hc, hn]
        cases hbody : (pages k0).hasBody <;>
          simp only [Bool.not_false, Bool.not_true, if_pos, if_neg, Nat.lt_irrefl,
            Bool.false_eq_true, if_false] <;>
          exact ih (k0 + 1) (fun k hk1 hk2 => hcond k (by omega) (by omega))

/-- C3: if over all `maxAttempts` polling attempts the page shows
neither the results-container marker nor a no-results marker,
`wait_for_results` reports failure with count 0; the identity's outcome
is then `TIMEOUT` with `result_count = 0` and an unchanged failure flag;
and the containing work item still counts toward `completed`, since the
finish transition increments `completed` by one whatever the outcomes. -/
theorem timeout_path_outcome :
    (∀ pages : Nat → Page,
      (∀ k, k < maxAttempts →
        (pages k).hasBody = false ∨
        ((pages k).partyCards = 0 ∧ (pages k).noResultsText = false)) →
      wait_for_results pages = (false, 0)) ∧
    (∀ (ident : Identity) (pages : Nat → Page) (cards : List PartyCard) (f : Bool),
      wait_for_results pages = (false, 0) →
      process_identity ident (.completes pages cards) f
        = (⟨.TIMEOUT, 0, false, f, none⟩, f)) ∧
    (∀ (s : SysState) (i : Nat) (item : WorkItem) (envs : Nat → IdentityEnv),
      s.workers.get? i = some (.busy item) →
      ∃ t, WStep s t ∧ t.stats.completed = s.stats.completed + 1) := by
  refine ⟨?_, ?_, ?_⟩
  · intro pages hcond
    exact waitGo_none pages maxAttempts 0 (fun k hk1 hk2 => hcond k (by omega))
  · intro ident pages cards f hwait
    simp only [process_identity, hwait, Bool.not_false, if_pos]
  · intro s i item envs hget
    exact ⟨_, WStep.finishItem s i item envs hget, rfl⟩

theorem timeout_path_outcome_witness :
    wait_for_results (fun _ => ⟨false, 0, false⟩) = (false, 0) ∧
    process_identity ⟨"JANE", "", "DOE", "DOE, JANE"⟩
        (.completes (fun _ => ⟨false, 0, false⟩) []) false
      = (⟨.TIMEOUT, 0, false, false, none⟩, false) ∧
    (∃ t, WStep (⟨[none], [.busy wItem], ⟨0, 1⟩, [], []⟩ : SysState) t ∧
      t.stats.completed = 0 + 1) := by
  refine ⟨?_, ?_, ?_⟩
  · exact timeout_path_outcome.1 (fun _ => ⟨false, 0, false⟩) (fun k _ => Or.inl rfl)
  · exact timeout_path_outcome.2.1 ⟨"JANE", "", "DOE", "DOE, JANE"⟩
      (fun _ => ⟨false, 0, false⟩) [] false
      (timeout_path_outcome.1 (fun _ => ⟨false, 0, false⟩) (fun k _ => Or.inl rfl))
  · exact timeout_path_outcome.2.2 ⟨[none], [.busy wItem], ⟨0, 1⟩, [], []⟩ 0 wItem
      (fun _ => IdentityEnv.raises "") rfl

/-! ### Per-item exception handling (C4) -/

theorem get?_set_self {α : Type} (l : List α) (i : Nat) (a : α) (h : i < l.length) :
    (l.set i a).get? i = some a := by
  simp [List.get?_eq_getElem?, List.getElem?_set_self', h, List.getElem?_eq_getElem]

/-- C4 counterexample: in the tax driver an exception raised while
processing one work item is caught at the per-item boundary, but no
outcome at all is pushed onto the results queue — in particular no
synthetic `ERROR` SearchOutcome — though `completed` still rises. -/
theorem tax_exception_no_error_outcome :
    tax_item_results 1 7 (Except.error "boom") = [] ∧
    (tax_item_stats (Except.error "boom") ⟨0, 0, 1⟩).completed = 1 := by
  exact ⟨rfl, rfl⟩

/-- C4 amended: in the probate driver an exception raised while
processing one identity is caught at the per-identity boundary inside
the item, converted into a synthetic `ERROR` outcome carrying the
message, every identity still yields exactly one outcome, and the
worker does not crash — it returns to idle and the item still counts
toward `completed`; in the tax driver the exception is caught at the
per-item boundary and the worker proceeds with `completed` incremented,
but no outcome is emitted for the failed item. -/
theorem per_item_exception_handling :
    (∀ (ident : Identity) (msg : String) (f : Bool),
      process_identity ident (.raises msg) f = (⟨.ERROR, 0, false, f, some msg⟩, f)) ∧
    (∀ (envs : Nat → IdentityEnv) (l : List Identity) (k : Nat) (f : Bool),
      (run_identities envs l k f).1.length = l.length) ∧
    (∀ (s : SysState) (i : Nat) (item : WorkItem) (envs : Nat → IdentityEnv),
      s.workers.get? i = some (.busy item) →
      ∃ t, WStep s t ∧ t.workers.get? i = some .idle ∧
        t.stats.completed = s.stats.completed + 1) ∧
    (∀ (wid row : Nat) (msg : String) (st : TaxStats),
      tax_item_results wid row (Except.error msg) = [] ∧
      (tax_item_stats (Except.error msg) st).completed = st.completed + 1 ∧
      (tax_item_stats (Except.error msg) st).in_progress = st.in_progress - 1) := by
  refine ⟨fun _ _ _ => rfl, ?_, ?_, fun _ _ _ _ => ⟨rfl, rfl, rfl⟩⟩
  · intro envs l k f
    exact run_identities_length envs l k f
  · intro s i item envs hget
    refine ⟨_, WStep.finishItem s i item envs hget, ?_, rfl⟩
    exact get?_set_self s.workers i .idle (List.get?_eq_some.mp hget).1

theorem per_item_exception_handling_witness :
    process_identity ⟨"JANE", "", "DOE", "DOE, JANE"⟩ (.raises "net down") false
      = (⟨.ERROR, 0, false, false, some "net down"⟩, false) ∧
    (run_identities (fun _ => .raises "x") [⟨"A", "", "B", "B, A"⟩] 0 false).1.length = 1 ∧
    (∃ t, WStep (⟨[none], [.busy wItem], ⟨0, 1⟩, [], []⟩ : SysState) t ∧
      t.workers.get? 0 = some .idle ∧ t.stats.completed = 0 + 1) ∧
    tax_item_results 2 9 (Except.error "crash") = [] := by
  refine ⟨?_, ?_, ?_, ?_⟩
  · exact per_item_exception_handling.1 ⟨"JANE", "", "DOE", "DOE, JANE"⟩ "net down" false
  · exact per_item_exception_handling.2.1 (fun _ => .raises "x") [⟨"A", "", "B", "B, A"⟩] 0 false
  · exact per_item_exception_handling.2.2.1 ⟨[none], [.busy wItem], ⟨0, 1⟩, [], []⟩ 0 wItem
      (fun _ => IdentityEnv.raises "") rfl
  · exact (per_item_exception_handling.2.2.2 2 9 "crash" ⟨0, 0, 1⟩).1

/-! ### Disqualification scan (C5) -/

theorem scan_case_tables_any :
    ∀ cs : List CaseTable, scan_case_tables cs = cs.any case_table_disqualifies := by
  intro cs
  induction cs with
  | nil => rfl
  | cons ct rest ih =>
      simp only [scan_case_tables, List.any_cons, ih]
      cases h : case_table_disqualifies ct <;> simp [h]

theorem scan_party_cards_any (e : String) (w : Option String) :
    ∀ cards : List PartyCard,
      scan_party_cards e w cards = cards.any (party_card_disqualifies e w) := by
  intro cards
  induction cards with
  | nil => rfl
  | cons pc rest ih =>
      simp only [scan_party_cards, List.any_cons, ih]
      cases h : party_card_disqualifies e w pc <;> simp [h]

/-- C5: the disqualification scan reports true exactly when some party
card names the searched identity and holds a nested case whose
(stripped, uppercased) type is in the disqualifying category list with a
(stripped, uppercased) status equal to the `OPEN` marker — the
uppercasing makes both comparisons case-insensitive, as the concrete
evaluations show — and the scan is short-circuited: a disqualifying
first card, or a disqualifying first case within a card, fixes the
result to true whatever the remaining cards or cases hold. -/
theorem disqualifying_flag_characterization :
    (∀ (first_name middle_name last_name : String) (cards : List PartyCard),
      process_search_results first_name middle_name last_name cards = true ↔
        ∃ pc ∈ cards,
          card_name_matches (expected_of first_name middle_name last_name).1
            (expected_of first_name middle_name last_name).2 pc = true ∧
          ∃ ct ∈ pc.tables, case_table_disqualifies ct = true) ∧
    (∀ (e : String) (w : Option String) (pc : PartyCard) (rest : List PartyCard),
      party_card_disqualifies e w pc = true → scan_party_cards e w (pc :: rest) = true) ∧
    (∀ (ct : CaseTable) (rest : List CaseTable),
      case_table_disqualifies ct = true → scan_case_tables (ct :: rest) = true) ∧
    (case_table_disqualifies ⟨[⟨"card-data party-case-type", "HEIRSHIP"⟩,
        ⟨"card-data party-case-status", "open"⟩]⟩ = true ∧
      case_table_disqualifies ⟨[⟨"card-data party-case-type", "HEIRSHIP"⟩,
        ⟨"card-data party-case-status", "OPEN"⟩]⟩ = true ∧
      case_table_disqualifies ⟨[⟨"card-data party-case-type", "heirship"⟩,
        ⟨"card-data party-case-status", "Open"⟩]⟩ = true ∧
      case_table_disqualifies ⟨[⟨"card-data party-case-type", "HEIRSHIP"⟩,
        ⟨"card-data party-case-status", "CLOSED"⟩]⟩ = false ∧
      case_table_disqualifies ⟨[⟨"card-data party-case-type", "EVICTION"⟩,
        ⟨"card-data party-case-status", "OPEN"⟩]⟩ = false) := by
  refine ⟨?_, ?_, ?_, by decide⟩
  · intro fn mn ln cards
    rw [process_search_results, scan_party_cards_any, List.any_eq_true]
    constructor
    · rintro ⟨pc, hmem, hdisq⟩
      rw [party_card_disqualifies, Bool.and_eq_true, scan_case_tables_any,
        List.any_eq_true] at hdisq
      exact ⟨pc, hmem, hdisq.1, hdisq.2⟩
    · rintro ⟨pc, hmem, hname, hct⟩
      refine ⟨pc, hmem, ?_⟩
      rw [party_card_disqualifies, Bool.and_eq_true, scan_case_tables_any,
        List.any_eq_true]
      exact ⟨hname, hct⟩
  · intro e w pc rest h
    simp [scan_party_cards, h]
  · intro ct rest h
    simp [scan_case_tables, h]

theorem disqualifying_flag_characterization_witness :
    process_search_results "JOHN" "" "SMITH"
      [⟨"SMITH, JOHN", [⟨[⟨"card-data party-case-type", "HEIRSHIP"⟩,
        ⟨"card-data party-case-status", "OPEN"⟩]⟩]⟩] = true ∧
    scan_party_cards "SMITH, JOHN" none
      [⟨"SMITH, JOHN", [⟨[⟨"card-data party-case-type", "HEIRSHIP"⟩,
        ⟨"card-data party-case-status", "OPEN"⟩]⟩]⟩,
       ⟨"IRRELEVANT", []⟩] = true ∧
    scan_case_tables [⟨[⟨"card-data party-case-type", "HEIRSHIP"⟩,
        ⟨"card-data party-case-status", "OPEN"⟩]⟩, ⟨[]⟩] = true := by
  refine ⟨?_, ?_, ?_⟩
  · exact (disqualifying_flag_characterization.1 "JOHN" "" "SMITH"
      [⟨"SMITH, JOHN", [⟨[⟨"card-data party-case-type", "HEIRSHIP"⟩,
        ⟨"card-data party-case-status", "OPEN"⟩]⟩]⟩]).mpr (by decide)
  · exact disqualifying_flag_characterization.2.1 "SMITH, JOHN" none
      ⟨"SMITH, JOHN", [⟨[⟨"card-data party-case-type", "HEIRSHIP"⟩,
        ⟨"card-data party-case-status", "OPEN"⟩]⟩]⟩ [⟨"IRRELEVANT", []⟩] (by decide)
  · exact disqualifying_flag_characterization.2.2.1
      ⟨[⟨"card-data party-case-type", "HEIRSHIP"⟩,
        ⟨"card-data party-case-status", "OPEN"⟩]⟩ [⟨[]⟩] (by decide)

/-! ### Work-item aggregation over identities (C6) -/

theorem process_identity_snd (ident : Identity) (env : IdentityEnv) (f : Bool) :
    (process_identity ident env f).2
      = (f || (process_identity ident env f).1.disqualifying_probate_found) := by
  cases env with
  | raises msg => simp [process_identity]
  | completes pages cards =>
      simp only [process_identity]
      cases hres : wait_for_results pages with
      | mk success cnt =>
          cases success with
          | false => simp
          | true =>
              cases cnt with
              | zero => simp
              | succ m =>
                  simp only [Bool.not_true, Bool.false_eq_true, if_false, Nat.succ_pos,
                    if_pos, Nat.zero_lt_succ]

theorem process_identity_flag_disq (ident : Identity) (env : IdentityEnv) (f : Bool) :
    (process_identity ident env f).1.disqualifying_probate_found = true →
    (process_identity ident env f).1.status = PStatus.DISQUALIFIED := by
  cases env with
  | raises msg => intro h; simp [process_identity] at h
  | completes pages cards =>
      intro h
      simp only [process_identity] at h ⊢
      cases hres : wait_for_results pages with
      | mk success cnt =>
          rw [hres] at h
          cases success with
          | false => simp at h
          | true =>
              cases cnt with
              | zero => simp at h
              | succ m =>
                  simp at h
                  simp only [Bool.not_true, Bool.false_eq_true, if_false, Nat.succ_pos,
                    if_pos, Nat.zero_lt_succ]
                  rw [if_pos h]

theorem run_identities_snd (envs : Nat → IdentityEnv) :
    ∀ (l : List Identity) (k : Nat) (f : Bool),
      (run_identities envs l k f).2
        = (f || (run_identities envs l k f).1.any
            (fun o => o.disqualifying_probate_found)) := by
  intro l
  induction l with
  | nil => intro k f; simp [run_identities]
  | cons ident rest ih =>
      intro k f
      simp only [run_identities, List.any_cons]
      rw [ih, process_identity_snd, Bool.or_assoc]

theorem run_identities_mem_flag (envs : Nat → IdentityEnv) :
    ∀ (l : List Identity) (k : Nat) (f : Bool) (o : SearchOutcome),
      o ∈ (run_identities envs l k f).1 → o.disqualifying_probate_found = true →
      o.status = PStatus.DISQUALIFIED := by
  intro l
  induction l with
  | nil => intro k f o ho; simp [run_identities] at ho
  | cons ident rest ih =>
      intro k f o ho hflag
      simp only [run_identities, List.mem_cons] at ho
      rcases ho with rfl | ho
      · exact process_identity_flag_disq ident (envs k) f hflag
      · exact ih (k + 1) _ o ho hflag

/-- C6: the final `owners_failed_filter` flag a work item's loop leaves
is the logical OR, over all its identities' outcomes, of
`disqualifying_probate_found` (on top of the incoming flag); hence if
any identity's outcome carries the flag the item is disqualified, and if
every identity's outcome is `FOUND_CLEAN` or `NOT_FOUND` the item is not
disqualified. -/
theorem workitem_disqualification_aggregate :
    (∀ (envs : Nat → IdentityEnv) (l : List Identity) (k : Nat) (f : Bool),
      (run_identities envs l k f).2
        = (f || (run_identities envs l k f).1.any
            (fun o => o.disqualifying_probate_found))) ∧
    (∀ (envs : Nat → IdentityEnv) (l : List Identity),
      (∃ o ∈ (run_identities envs l 0 false).1, o.disqualifying_probate_found = true) →
      (run_identities envs l 0 false).2 = true) ∧
    (∀ (envs : Nat → IdentityEnv) (l : List Identity),
      (∀ o ∈ (run_identities envs l 0 false).1,
        o.status = PStatus.FOUND_CLEAN ∨ o.status = PStatus.NOT_FOUND) →
      (run_identities envs l 0 false).2 = false) := by
  refine ⟨fun envs l k f => run_identities_snd envs l k f, ?_, ?_⟩
  · intro envs l hex
    rw [run_identities_snd, Bool.false_or, List.any_eq_true]
    exact hex
  · intro envs l hall
    rw [run_identities_snd, Bool.false_or]
    by_contra hany
    rw [Bool.not_eq_false, List.any_eq_true] at hany
    obtain ⟨o, ho, hflag⟩ := hany
    have hst := run_identities_mem_flag envs l 0 false o ho hflag
    rcases hall o ho with h | h <;> rw [hst] at h <;> cases h

theorem workitem_disqualification_aggregate_witness :
    ((run_identities (fun _ => .completes (fun _ => ⟨true, 1, false⟩)
        [⟨"SMITH, JOHN", [⟨[⟨"card-data party-case-type", "HEIRSHIP"⟩,
          ⟨"card-data party-case-status", "OPEN"⟩]⟩]⟩])
        [⟨"JOHN", "", "SMITH", "SMITH, JOHN"⟩] 0 false).2 = true) ∧
    ((run_identities (fun _ => .completes (fun _ => ⟨true, 0, true⟩) [])
        [⟨"JOHN", "", "SMITH", "SMITH, JOHN"⟩] 0 false).2 = false) := by
  constructor
  · exact workitem_disqualification_aggregate.2.1
      (fun _ => .completes (fun _ => ⟨true, 1, false⟩)
        [⟨"SMITH, JOHN", [⟨[⟨"card-data party-case-type", "HEIRSHIP"⟩,
          ⟨"card-data party-case-status", "OPEN"⟩]⟩]⟩])
      [⟨"JOHN", "", "SMITH", "SMITH, JOHN"⟩] (by decide)
  · exact workitem_disqualification_aggregate.2.2
      (fun _ => .completes (fun _ => ⟨true, 0, true⟩) [])
      [⟨"JOHN", "", "SMITH", "SMITH, JOHN"⟩] (by decide)

/-! ### Co-owner split example (C8) -/

/-- C8: on the input `"SMITH JOHN & MARY EST OF"` the owner-name parser
returns exactly the two identities `(JOHN, SMITH, "SMITH, JOHN")` and
`(MARY, SMITH, "SMITH, MARY")`, the second surname inferred from the
first party because only a first name follows the `&` delimiter. -/
theorem co_owner_split_example :
    parse_owner_name "SMITH JOHN & MARY EST OF" =
      [⟨"JOHN", "", "SMITH", "SMITH, JOHN"⟩, ⟨"MARY", "", "SMITH", "SMITH, MARY"⟩] := by
  decide

/-! ### CAPTCHA failure handling (C9) -/

theorem solverPoll_none (poll : Nat → TaskResultResp) :
    ∀ (fuel a : Nat), (∀ k, a ≤ k → k < a + fuel → (poll k).status ≠ "ready") →
      solverPoll poll a fuel = none := by
  intro fuel
  induction fuel with
  | zero => intro a _; rfl
  | succ m ih =>
      intro a h
      simp only [solverPoll]
      rw [if_neg]
      · exact ih (a + 1) (fun k h1 h2 => h k (by omega) (by omega))
      · intro hc
        exact h a (le_refl a) (by omega) (beq_iff_eq.mp hc)

theorem solveCaptchaPoll_timeout (poll : Nat → TaskResultResp) :
    ∀ (fuel a : Nat), (∀ k, a ≤ k → k < a + fuel → (poll k).status ≠ "ready") →
      solveCaptchaPoll poll a fuel = Except.error "CAPTCHA solving timeout" := by
  intro fuel
  induction fuel with
  | zero => intro a _; rfl
  | succ m ih =>
      intro a h
      simp only [solveCaptchaPoll]
      rw [if_neg]
      · exact ih (a + 1) (fun k h1 h2 => h k (by omega) (by omega))
      · intro hc
        exact h a (le_refl a) (by omega) (beq_iff_eq.mp hc)

/-- C9 counterexample: the probate driver's own `solve_captcha` raises
an exception (modelled as `Except.error`) on a vendor error rather than
returning a failure value, so the claim that every solve attempt returns
failure rather than raising is false for the solve path the probate
worker actually calls. -/
theorem solve_captcha_raises_on_vendor_error :
    solve_captcha ⟨1, "ERROR_KEY_DENIED", "t1"⟩ (fun _ => ⟨"processing", ""⟩)
      = Except.error "CapSolver error: ERROR_KEY_DENIED" := rfl

/-- C9 amended: `CaptchaSolver.solve` in services/captcha/solver.py
creates a remote task and polls at a fixed 3-second interval up to
`timeout // 3` attempts, returning `none` (failure, not an exception) on
vendor error and on poll timeout; the probate driver's local
`solve_captcha` instead raises on vendor error and on its 60-poll
timeout, but that exception is caught at the per-identity boundary and
recorded as an `ERROR` outcome carrying the message, so the caller
treats it as a recoverable per-item failure and the worker is not
terminated. -/
theorem captcha_failure_handling :
    (∀ (create : CreateTaskResp) (poll : Nat → TaskResultResp) (t : Nat),
      create.errorId ≠ 0 → CaptchaSolver.solve create poll t = none) ∧
    (∀ (create : CreateTaskResp) (poll : Nat → TaskResultResp) (t : Nat),
      (∀ k, k < t / 3 → (poll k).status ≠ "ready") →
      CaptchaSolver.solve create poll t = none) ∧
    (∀ (create : CreateTaskResp) (poll : Nat → TaskResultResp),
      create.errorId ≠ 0 →
      solve_captcha create poll
        = Except.error ("CapSolver error: " ++ create.errorDescription)) ∧
    (∀ (create : CreateTaskResp) (poll : Nat → TaskResultResp),
      create.errorId = 0 → (∀ k, k < 60 → (poll k).status ≠ "ready") →
      solve_captcha create poll = Except.error "CAPTCHA solving timeout") ∧
    (∀ (ident : Identity) (msg : String) (f : Bool),
      (process_identity ident (.raises msg) f).1.status = PStatus.ERROR ∧
      (process_identity ident (.raises msg) f).1.error = some msg) := by
  refine ⟨?_, ?_, ?_, ?_, fun _ _ _ => ⟨rfl, rfl⟩⟩
  · intro create poll t he
    rw [CaptchaSolver.solve, if_pos he]
  · intro create poll t hp
    by_cases he : create.errorId ≠ 0
    · rw [CaptchaSolver.solve, if_pos he]
    · rw [CaptchaSolver.solve, if_neg he]
      exact solverPoll_none poll (t / 3) 0 (fun k h1 h2 => hp k (by omega))
  · intro create poll he
    rw [solve_captcha, if_pos he]
  · intro create poll he hp
    rw [solve_captcha, if_neg (by omega)]
    exact solveCaptchaPoll_timeout poll 60 0 (fun k h1 h2 => hp k (by omega))

theorem captcha_failure_handling_witness :
    CaptchaSolver.solve ⟨2, "bad key", "t"⟩ (fun _ => ⟨"processing", ""⟩) 180 = none ∧
    CaptchaSolver.solve ⟨0, "", "t"⟩ (fun _ => ⟨"processing", ""⟩) 180 = none ∧
    solve_captcha ⟨0, "", "t"⟩ (fun _ => ⟨"processing", ""⟩)
      = Except.error "CAPTCHA solving timeout" ∧
    (process_identity ⟨"A", "", "B", "B, A"⟩ (.raises "captcha fail") false).1.status
      = PStatus.ERROR := by
  refine ⟨?_, ?_, ?_, ?_⟩
  · exact captcha_failure_handling.1 ⟨2, "bad key", "t"⟩
      (fun _ => ⟨"processing", ""⟩) 180 (by decide)
  · exact captcha_failure_handling.2.1 ⟨0, "", "t"⟩
      (fun _ => ⟨"processing", ""⟩) 180
      (fun k _ => by show ("processing" : String) ≠ "ready"; decide)
  · exact captcha_failure_handling.2.2.2.1 ⟨0, "", "t"⟩
      (fun _ => ⟨"processing", ""⟩) rfl
      (fun k _ => by show ("processing" : String) ≠ "ready"; decide)
  · exact (captcha_failure_handling.2.2.2.2 ⟨"A", "", "B", "B, A"⟩ "captcha fail" false).1

/-! ### Degenerate raw strings and zero-outcome items (C10) -/

/-- C10: some raw subject strings parse to an empty identity sequence —
a bare `"&"`, and a co-owner string whose halves hold too few name
tokens, such as `"SMITH &"` — and a work item holding an empty identity
list pushes no outcome at all onto the results queue while its finish
transition still increments `completed` by exactly one. -/
theorem empty_parse_zero_outcomes :
    parse_owner_name "&" = [] ∧
    parse_owner_name "SMITH &" = [] ∧
    (∀ (envs : Nat → IdentityEnv) (f : Bool), run_identities envs [] 0 f = ([], f)) ∧
    (∀ (s : SysState) (i : Nat) (item : WorkItem) (envs : Nat → IdentityEnv),
      s.workers.get? i = some (.busy item) → item.parsed_owners = [] →
      ∃ t, WStep s t ∧ t.stats.completed = s.stats.completed + 1 ∧
        t.results = s.results) := by
  refine ⟨by decide, by decide, fun _ _ => rfl, ?_⟩
  intro s i item envs hget hpo
  refine ⟨_, WStep.finishItem s i item envs hget, rfl, ?_⟩
  show s.results ++ (run_identities envs item.parsed_owners 0 false).1 = s.results
  rw [hpo]
  simp [run_identities]

theorem empty_parse_zero_outcomes_witness :
    run_identities (fun _ => .raises "x") [] 0 false = ([], false) ∧
    (∃ t, WStep (⟨[none], [.busy ⟨3, "&", parse_owner_name "&"⟩], ⟨0, 1⟩, [], []⟩ :
        SysState) t ∧
      t.stats.completed = 0 + 1 ∧ t.results = []) := by
  constructor
  · exact empty_parse_zero_outcomes.2.2.1 (fun _ => .raises "x") false
  · exact empty_parse_zero_outcomes.2.2.2
      ⟨[none], [.busy ⟨3, "&", parse_owner_name "&"⟩], ⟨0, 1⟩, [], []⟩ 0
      ⟨3, "&", parse_owner_name "&"⟩ (fun _ => .raises "x") rfl (by decide)

end PropertyFinder
